import Mathlib

/-!
Verification of the OPUS binary container decoder (`opus/opus.py`).

The decoder is shallowly embedded: byte streams are `List Nat` (each element a
byte value), the Python file object is a `Cursor` (data plus position, with
`read` returning at most the requested number of bytes, as Python's
`file.read` does), and every fallible Python operation (`assert`,
`bytes.decode`, `struct.unpack`, out-of-range indexing, `raise`) is an
`Except OpusError` value.  `struct.unpack` of `<d` (a little-endian IEEE-754
double) is represented by the 64-bit little-endian word it reads, i.e. the
bit pattern of the double, so that bit-for-bit statements about doubles are
exact statements about that word.
-/

set_option autoImplicit false

namespace Opus

/-- The abstract error kinds of the decoder.  `truncated` also stands for a
Python `IndexError`/`struct.error` on a short read; `structuralViolation`
stands for a failed `assert` on a byte-level layout assumption;
`magicMismatch` carries, in offset order, one triple
(offset, actual byte, reference byte) per masked disagreement. -/
inductive OpusError where
  | truncated
  | encoding
  | structuralViolation
  | unknownType (typeByte : Nat) (head : List Nat)
  | magicMismatch (diff : List (Nat × Nat × Nat))
  | notFound
deriving DecidableEq, Repr

/-- A seekable byte source: the whole byte content plus the current position,
modelling the Python file object `fin`. -/
structure Cursor where
  data : List Nat
  pos : Nat
deriving DecidableEq, Repr

/-- `fin.read(n)`: return up to `n` bytes from the current position and
advance the position by the number of bytes actually returned. -/
def Cursor.read (c : Cursor) (n : Nat) : List Nat × Cursor :=
  let bytes := (c.data.drop c.pos).take n
  (bytes, ⟨c.data, c.pos + bytes.length⟩)

/-- `bytes.decode('ASCII')`: succeeds exactly when every byte is < 128. -/
def decodeAscii (bs : List Nat) : Except OpusError String :=
  if bs.all (fun b => b < 128) then .ok (String.mk (bs.map Char.ofNat))
  else .error .encoding

/-- Indexing `bs[i]` on a Python bytes object: `IndexError` (modelled as
`truncated`) when out of range. -/
def getByte (bs : List Nat) (i : Nat) : Except OpusError Nat :=
  match bs[i]? with
  | some b => .ok b
  | none => .error .truncated

/-- Little-endian unsigned integer value of a byte sequence
(`struct.unpack` of `<I`, and the bit pattern read by `<d`). -/
def leNat (bs : List Nat) : Nat :=
  bs.foldr (fun b acc => b + 256 * acc) 0

/-- `struct.unpack('<i', bs)`: little-endian signed 32-bit integer. -/
def leInt32 (bs : List Nat) : Int :=
  let u := leNat bs
  if u < 2 ^ 31 then (u : Int) else (u : Int) - 2 ^ 32

/-- Python `bytes.find(x)`: index of the first occurrence, `-1` if absent. -/
def pyFind (bs : List Nat) (x : Nat) : Int :=
  let i := bs.findIdx (fun b => b = x)
  if i < bs.length then (i : Int) else -1

/-- Python slice `bs[0:stop]` with a possibly negative `stop`. -/
def pySliceTo (bs : List Nat) (stop : Int) : List Nat :=
  if 0 ≤ stop then bs.take stop.toNat
  else bs.take (bs.length - stop.natAbs)

/-- The interpreted value of a parameter tail.  `realBits w` is the 64-bit
little-endian word read by `struct.unpack('<d', tail)`, i.e. the bit pattern
of the resulting double. -/
inductive Value where
  | none
  | intVal (i : Int)
  | realBits (w : Nat)
  | text (s : String)
deriving DecidableEq, Repr

/-- A decoded parameter record: the ASCII code from the first three head
bytes, the raw head bytes, and the tail bytes. -/
structure Parameter where
  code : String
  head : List Nat
  tail : List Nat
deriving DecidableEq, Repr

/-- `Parameter.from_file`: `read_head` followed by `read_tail`.
The head is (up to) 8 bytes; bytes 0-2 decode as the ASCII code; byte 3 must
be zero; for a non-"END" code the tail length is `head[6] * 2` and bytes 5
and 7 must be zero, then the tail is read; for "END" byte 4 must be `0x00`
or `0x2E` and a zero-length tail is read. -/
def Parameter.fromFile (c : Cursor) : Except OpusError (Parameter × Cursor) :=
  let r := c.read 8
  let head := r.1
  let c1 := r.2
  match decodeAscii (head.take 3) with
  | .error e => .error e
  | .ok code =>
    match getByte head 3 with
    | .error e => .error e
    | .ok b3 =>
      if b3 ≠ 0 then .error .structuralViolation
      else if code ≠ "END" then
        match getByte head 6 with
        | .error e => .error e
        | .ok b6 =>
          match getByte head 5 with
          | .error e => .error e
          | .ok b5 =>
            if b5 ≠ 0 then .error .structuralViolation
            else
              match getByte head 7 with
              | .error e => .error e
              | .ok b7 =>
                if b7 ≠ 0 then .error .structuralViolation
                else
                  let rt := c1.read (b6 * 2)
                  .ok (⟨code, head, rt.1⟩, rt.2)
      else
        match getByte head 4 with
        | .error e => .error e
        | .ok b4 =>
          if b4 = 0x00 ∨ b4 = 0x2E then
            let rt := c1.read 0
            .ok (⟨code, head, rt.1⟩, rt.2)
          else .error .structuralViolation

/-- `Parameter.interpretation_of_tail`: the typed value selected by head
byte 4 (the type byte); `None` for the "END" sentinel. -/
def Parameter.interpretationOfTail (p : Parameter) : Except OpusError Value :=
  if p.code = "END" then .ok .none
  else
    match getByte p.head 4 with
    | .error e => .error e
    | .ok t =>
      if t = 0 ∨ t = 0x10 then
        if p.tail.length = 4 then .ok (.intVal (leInt32 p.tail))
        else .error .structuralViolation
      else if t = 1 then
        if p.tail.length = 8 then .ok (.realBits (leNat p.tail))
        else .error .structuralViolation
      else if t = 2 ∨ t = 3 ∨ t = 4 then
        match decodeAscii (pySliceTo p.tail (pyFind p.tail 0)) with
        | .error e => .error e
        | .ok s => .ok (.text s)
      else .error (.unknownType t p.head)

/-- `read_parameter_list_to_end`, with explicit fuel: every successful
non-"END" record consumes eight head bytes, so `data.length + 1` units of
fuel always suffice; running out of fuel reports `truncated`. -/
def readParameterListAux : Nat → Cursor → List Parameter →
    Except OpusError (List Parameter × Cursor)
  | 0, _, _ => .error .truncated
  | fuel + 1, c, acc =>
    match Parameter.fromFile c with
    | .error e => .error e
    | .ok (p, c1) =>
      if p.code = "END" then .ok (acc ++ [p], c1)
      else readParameterListAux fuel c1 (acc ++ [p])

/-- `read_parameter_list_to_end(fin)`: decode records from the current
position until an "END" record is produced; the terminal record is included
in the returned sequence. -/
def readParameterListToEnd (c : Cursor) :
    Except OpusError (List Parameter × Cursor) :=
  readParameterListAux (c.data.length + 1) c []

/-- `FileHeaderEntry.BINARY_TAGS`: the fixed table from effective tag to
human-readable binary block name. -/
def BINARY_TAGS : List (Nat × String) := [
  (0x00000405, "S Sc.R"),
  (0x00000406, "S Sc.I"),
  (0x00000407, "S Sc"),
  (0x00500407, "S Sc/multiple"),
  (0x0000040b, "R Sc"),
  (0x00000805, "S Ifg.R"),
  (0x00000806, "S Ifg.I"),
  (0x00000807, "S Ifg"),
  (0x00500807, "S Ifg/multiple"),
  (0x0000080b, "R Ifg"),
  (0x00000c07, "S PH"),
  (0x00000c0b, "R PH"),
  (0x0000100f, "AB"),
  (0x0050100f, "AB/multiple"),
  (0x0000140f, "TR"),
  (0x0050140f, "TR/multiple"),
  (0x0000280f, "RAM"),
  (0x0000300f, "REFL"),
  (0x00003c0f, "L REFL"),
  (0x00501c00, "Trace/multiple")]

def PARAMETER_TAG_MASK : Nat := 0x00000010

def MULTIPLE_TAG_MASK : Nat := 0x00500000

def PARAMETER_UNKNOWN_MASK : Nat := 0x40000000

/-- A directory entry: three little-endian 32-bit integers. -/
structure FileHeaderEntry where
  tag : Nat
  length : Nat
  offset : Nat
deriving DecidableEq, Repr

/-- `self._tag = self.tag & (~PARAMETER_UNKNOWN_MASK)`: the tag with bit 30
cleared.  For the 32-bit tags produced by `decode_entry` this is exactly
Python's arbitrary-precision `tag & ~0x40000000`. -/
def FileHeaderEntry.effectiveTag (e : FileHeaderEntry) : Nat :=
  e.tag &&& (0xFFFFFFFF ^^^ PARAMETER_UNKNOWN_MASK)

/-- `FileHeaderEntry.name_binary`: table lookup on the effective tag. -/
def FileHeaderEntry.nameBinary (e : FileHeaderEntry) : Option String :=
  BINARY_TAGS.lookup e.effectiveTag

def FileHeaderEntry.isEntryList (e : FileHeaderEntry) : Bool :=
  e.tag == 0x00003400

def FileHeaderEntry.isHistory (e : FileHeaderEntry) : Bool :=
  e.tag == 0x40680000

def FileHeaderEntry.isBinary (e : FileHeaderEntry) : Bool :=
  (BINARY_TAGS.lookup e.effectiveTag).isSome

def FileHeaderEntry.isMultiple (e : FileHeaderEntry) : Bool :=
  e.isBinary && (e.tag &&& MULTIPLE_TAG_MASK != 0)

/-- `FileHeaderEntry.parameter_list_tag`: `tag | 0x10`, guarded by the
`assert self.is_binary()`; the failed assert is modelled as `none`. -/
def FileHeaderEntry.parameterListTag (e : FileHeaderEntry) : Option Nat :=
  if e.isBinary then some (e.tag ||| PARAMETER_TAG_MASK) else none

/-- `struct.unpack('<III', entry_binary)`: fails unless exactly 12 bytes. -/
def FileHeaderEntry.decodeEntry (bs : List Nat) :
    Except OpusError FileHeaderEntry :=
  if bs.length = 12 then
    .ok ⟨leNat (bs.take 4), leNat ((bs.drop 4).take 4), leNat (bs.drop 8)⟩
  else .error .truncated

/-- `FileHeaderEntry.from_file`: read 12 bytes and decode them. -/
def FileHeaderEntry.fromFile (c : Cursor) :
    Except OpusError (FileHeaderEntry × Cursor) :=
  let r := c.read 12
  match FileHeaderEntry.decodeEntry r.1 with
  | .error e => .error e
  | .ok e => .ok (e, r.2)

/-- `FileHeader.MAGIC`: the 20-byte reference prologue pattern. -/
def MAGIC : List Nat :=
  [0x0a, 0x0a, 0xfe, 0xfe, 0, 0, 0, 0,
   0xFF, 0xFF, 0xFF, 0x41, 0x18, 0, 0, 0, 0x28, 0, 0, 0]

/-- `FileHeader.MMASK`: the per-byte comparison mask; bytes 8, 9 and 10
are fully masked out (mask `0x00`), every other byte has mask `0xFF`. -/
def MMASK : List Nat :=
  [0xff, 0xff, 0xff, 0xff, 0xff, 0xff, 0xff, 0xff,
   0, 0, 0, 0xff, 0xff, 0xff, 0xff, 0xff, 0xff, 0xff, 0xff, 0xff]

/-- The loop body of `FileHeader._get_difference`: walk the three sequences
in step (Python `zip` stops at the shortest) and record, in offset order,
each position where the masked bytes disagree. -/
def diffAux : Nat → List Nat → List Nat → List Nat → List (Nat × Nat × Nat)
  | _, [], _, _ => []
  | _, _ :: _, [], _ => []
  | _, _ :: _, _ :: _, [] => []
  | i, a :: as, b :: bs, m :: ms =>
    if (m &&& a) ≠ (m &&& b) then (i, a, b) :: diffAux (i + 1) as bs ms
    else diffAux (i + 1) as bs ms

/-- `FileHeader._get_difference(magic)`: the (offset, actual, reference)
triples of all masked disagreements, in ascending offset order; the empty
list stands for Python's `None` (no difference). -/
def getDifference (magic : List Nat) : List (Nat × Nat × Nat) :=
  diffAux 0 magic MAGIC MMASK

/-- A decoded file header: the ordered directory entries. -/
structure FileHeader where
  entries : List FileHeaderEntry
deriving DecidableEq, Repr

/-- The entry-reading loop of `FileHeader.from_file`. -/
def readEntries : Nat → Cursor → Except OpusError (List FileHeaderEntry × Cursor)
  | 0, c => .ok ([], c)
  | n + 1, c =>
    match FileHeaderEntry.fromFile c with
    | .error e => .error e
    | .ok (e, c1) =>
      match readEntries n c1 with
      | .error err => .error err
      | .ok (es, c2) => .ok (e :: es, c2)

/-- `FileHeader.from_file`: seek to 0, read and check the 20 magic bytes
under the mask, read the little-endian entry count, then decode that many
directory entries. -/
def FileHeader.fromFile (c : Cursor) : Except OpusError (FileHeader × Cursor) :=
  let c0 : Cursor := ⟨c.data, 0⟩
  let rm := c0.read MAGIC.length
  if rm.1.length ≠ MAGIC.length then .error .truncated
  else if getDifference rm.1 ≠ [] then .error (.magicMismatch (getDifference rm.1))
  else
    let rc := rm.2.read 4
    if rc.1.length ≠ 4 then .error .truncated
    else
      match readEntries (leNat rc.1) rc.2 with
      | .error e => .error e
      | .ok (es, c3) => .ok (⟨es⟩, c3)

/-- `FileHeader.get_binary_entry`: first entry that is binary with the given
name; `NotFound` (a `RuntimeError` in the source) if there is none. -/
def FileHeader.getBinaryEntry (h : FileHeader) (name : String) :
    Except OpusError FileHeaderEntry :=
  match h.entries.find? (fun i => i.isBinary && i.nameBinary == some name) with
  | some e => .ok e
  | none => .error .notFound

/-- The list comprehension
`[i for i in self.entries if i.tag == entry.parameter_list_tag()]`: the
guard calls `parameter_list_tag()` once per scanned element, so the assert
inside it (a `structuralViolation`) fires only when at least one element is
scanned; on an empty list no guard is ever evaluated. -/
def filterParameterTag (e : FileHeaderEntry) :
    List FileHeaderEntry → Except OpusError (List FileHeaderEntry)
  | [] => .ok []
  | i :: rest =>
    match e.parameterListTag with
    | none => .error .structuralViolation
    | some t =>
      match filterParameterTag e rest with
      | .error err => .error err
      | .ok es => .ok (if i.tag == t then i :: es else es)

/-- `FileHeader.get_parameter_list_entry`: build the comprehension of
entries whose tag equals `entry.parameter_list_tag()`; an empty result is a
`notFound` (`RuntimeError` in the source), otherwise the first element is
returned. -/
def FileHeader.getParameterListEntry (h : FileHeader) (e : FileHeaderEntry) :
    Except OpusError FileHeaderEntry :=
  match filterParameterTag e h.entries with
  | .error err => .error err
  | .ok [] => .error .notFound
  | .ok (x :: _) => .ok x

/-- Little-endian encoding of `n` into exactly `k` bytes (the inverse
direction of `leNat`, used to state round-trip properties). -/
def encodeLe : Nat → Nat → List Nat
  | 0, _ => []
  | k + 1, n => n % 256 :: encodeLe k (n / 256)

/-- Little-endian 4-byte encoding of a signed 32-bit integer (the inverse
direction of `leInt32`). -/
def encodeInt32 (i : Int) : List Nat :=
  encodeLe 4 (i % 2 ^ 32).toNat

/-- The ASCII string spelled by a list of byte values below 128. -/
def asciiString (bs : List Nat) : String :=
  String.mk (bs.map Char.ofNat)

instance {ε α : Type} [DecidableEq ε] [DecidableEq α] :
    DecidableEq (Except ε α) := fun a b =>
  match a, b with
  | .error e, .error f =>
    if h : e = f then .isTrue (congrArg _ h)
    else .isFalse (fun hh => h (Except.error.inj hh))
  | .error _, .ok _ => .isFalse Except.noConfusion
  | .ok _, .error _ => .isFalse Except.noConfusion
  | .ok x, .ok y =>
    if h : x = y then .isTrue (congrArg _ h)
    else .isFalse (fun hh => h (Except.ok.inj hh))

/-- Masking a byte value with the full per-byte mask `0xff` is the
identity. -/
theorem land255_eq (v : Nat) (h : v < 256) : 0xff &&& v = v := by
  rw [Nat.and_comm]
  have h2 : (0xff : Nat) = 2 ^ 8 - 1 := by norm_num
  rw [h2, Nat.and_pow_two_sub_one_eq_mod]
  exact Nat.mod_eq_of_lt (by omega)

/-- Claim C1 (amended): the fully masked prologue byte positions are 8, 9
and 10, not 11.  Replacing bytes 8-10 of the reference pattern by arbitrary
values keeps header decode succeeding (here on a prologue followed by a zero
entry count), while replacing byte 11 (reference value `0x41`, mask `0xff`)
by any other byte value makes decode fail with a `magicMismatch` naming
offset 11. -/
theorem fromFile_magic_mask_c1 :
    (∀ v8 v9 v10 : Nat, ∃ c' : Cursor,
      FileHeader.fromFile
        ⟨[0x0a, 0x0a, 0xfe, 0xfe, 0, 0, 0, 0, v8, v9, v10,
          0x41, 0x18, 0, 0, 0, 0x28, 0, 0, 0] ++ [0, 0, 0, 0], 0⟩ =
        .ok (⟨[]⟩, c')) ∧
    (∀ v : Nat, v < 256 → v ≠ 0x41 →
      FileHeader.fromFile ⟨MAGIC.set 11 v ++ [0, 0, 0, 0], 0⟩ =
        .error (.magicMismatch [(11, v, 0x41)])) := by
  constructor
  · intro v8 v9 v10
    refine ⟨⟨[0x0a, 0x0a, 0xfe, 0xfe, 0, 0, 0, 0, v8, v9, v10,
      0x41, 0x18, 0, 0, 0, 0x28, 0, 0, 0] ++ [0, 0, 0, 0], 24⟩, ?_⟩
    simp [FileHeader.fromFile, Cursor.read, getDifference, diffAux,
      leNat, readEntries, MAGIC, MMASK]
  · intro v hv hne
    have hm : (0xff : Nat) &&& v = v := land255_eq v hv
    have h65 : (0xff : Nat) &&& 0x41 = 0x41 := by decide
    simp [MAGIC, MMASK, FileHeader.fromFile, Cursor.read,
      getDifference, diffAux, hm, h65, hne]

/-- Claim C1, counterexample to the claim as stated: replacing byte 11 of
the reference pattern by the byte value 0 makes header decode fail. -/
theorem fromFile_magic_byte11_cex_c1 :
    FileHeader.fromFile ⟨MAGIC.set 11 0 ++ [0, 0, 0, 0], 0⟩ =
      .error (.magicMismatch [(11, 0, 0x41)]) := by
  rfl

/-- A list of length 8 is a literal eight-element list. -/
theorem list_length_eight {α : Type} (l : List α) (h : l.length = 8) :
    ∃ a0 a1 a2 a3 a4 a5 a6 a7, l = [a0, a1, a2, a3, a4, a5, a6, a7] :=
  match l, h with
  | [a0, a1, a2, a3, a4, a5, a6, a7], _ =>
    ⟨a0, a1, a2, a3, a4, a5, a6, a7, rfl⟩

/-- Claim C1, witness: the amended theorem applied at concrete masked bytes
and at the concrete replacement value 0 for byte 11. -/
theorem fromFile_magic_mask_witness_c1 :
    (∃ c' : Cursor,
      FileHeader.fromFile
        ⟨[0x0a, 0x0a, 0xfe, 0xfe, 0, 0, 0, 0, 1, 2, 3,
          0x41, 0x18, 0, 0, 0, 0x28, 0, 0, 0] ++ [0, 0, 0, 0], 0⟩ =
        .ok (⟨[]⟩, c')) ∧
    FileHeader.fromFile ⟨MAGIC.set 11 0 ++ [0, 0, 0, 0], 0⟩ =
      .error (.magicMismatch [(11, 0, 0x41)]) :=
  ⟨fromFile_magic_mask_c1.1 1 2 3,
   fromFile_magic_mask_c1.2 0 (by decide) (by decide)⟩

/-- Claim C5: for an 8-byte head whose first three bytes spell "END" and
whose byte 3 is zero, record decode succeeds exactly when head byte 4 (the
type-byte position) is `0x00` or `0x2E` — any other value is a structural
violation — and on success the tail is empty and the cursor stands at
position 8, directly after the head, so no tail bytes are read. -/
theorem fromFile_end_record_c5 (hd rest : List Nat) (b4 : Nat)
    (hlen : hd.length = 8)
    (hcode : hd.take 3 = [69, 78, 68])
    (h3 : hd[3]? = some 0)
    (h4 : hd[4]? = some b4) :
    ((b4 = 0x00 ∨ b4 = 0x2E) →
      Parameter.fromFile ⟨hd ++ rest, 0⟩ =
        .ok (⟨"END", hd, []⟩, ⟨hd ++ rest, 8⟩)) ∧
    (¬(b4 = 0x00 ∨ b4 = 0x2E) →
      Parameter.fromFile ⟨hd ++ rest, 0⟩ = .error .structuralViolation) := by
  obtain ⟨a0, a1, a2, a3, a4, a5, a6, a7, rfl⟩ := list_length_eight hd hlen
  simp only [List.take, List.cons.injEq, and_true] at hcode
  obtain ⟨rfl, rfl, rfl, -⟩ := hcode
  simp only [List.getElem?_cons_succ, List.getElem?_cons_zero,
    Option.some.injEq] at h3 h4
  subst h3
  subst h4
  have hdec : decodeAscii [69, 78, 68] = .ok "END" := by decide
  constructor
  · rintro (rfl | rfl) <;>
      simp [Parameter.fromFile, Cursor.read, hdec, getByte]
  · intro hb
    simp [Parameter.fromFile, Cursor.read, hdec, getByte, hb]

/-- Claim C5, witness: a degenerate END record with type byte `0x2E` (and
junk in bytes 5-7) is accepted, with an empty tail and the cursor left at
position 8. -/
theorem fromFile_end_record_witness_c5 :
    Parameter.fromFile ⟨[69, 78, 68, 0, 0x2E, 9, 9, 9] ++ [1, 2], 0⟩ =
      .ok (⟨"END", [69, 78, 68, 0, 0x2E, 9, 9, 9], []⟩,
           ⟨[69, 78, 68, 0, 0x2E, 9, 9, 9] ++ [1, 2], 8⟩) :=
  (fromFile_end_record_c5 [69, 78, 68, 0, 0x2E, 9, 9, 9] [1, 2] 0x2E
    (by decide) (by decide) (by decide) (by decide)).1 (Or.inr rfl)

/-- Claim C2: for an 8-byte head whose decoded three-byte code is not
"END", record decode fails with a structural violation unless head bytes
3, 5 and 7 are all zero; when they are all zero (and the tail bytes are
available) it succeeds, the tail is exactly `head[6] * 2` bytes long, and
exactly those bytes are consumed: the cursor ends at `8 + head[6] * 2`. -/
theorem fromFile_nonend_head_c2 (hd rest : List Nat) (code : String)
    (b3 b5 b6 b7 : Nat)
    (hlen : hd.length = 8)
    (hcode : decodeAscii (hd.take 3) = .ok code)
    (hne : code ≠ "END")
    (h3 : hd[3]? = some b3) (h5 : hd[5]? = some b5)
    (h6 : hd[6]? = some b6) (h7 : hd[7]? = some b7) :
    (¬(b3 = 0 ∧ b5 = 0 ∧ b7 = 0) →
      Parameter.fromFile ⟨hd ++ rest, 0⟩ = .error .structuralViolation) ∧
    (b3 = 0 → b5 = 0 → b7 = 0 → b6 * 2 ≤ rest.length →
      Parameter.fromFile ⟨hd ++ rest, 0⟩ =
        .ok (⟨code, hd, rest.take (b6 * 2)⟩, ⟨hd ++ rest, 8 + b6 * 2⟩) ∧
      (rest.take (b6 * 2)).length = b6 * 2) := by
  obtain ⟨a0, a1, a2, a3, a4, a5, a6, a7, rfl⟩ := list_length_eight hd hlen
  simp only [List.getElem?_cons_succ, List.getElem?_cons_zero,
    Option.some.injEq] at h3 h5 h6 h7
  subst h3
  subst h5
  subst h6
  subst h7
  simp only [List.take_succ_cons, List.take_zero] at hcode
  constructor
  · intro hbad
    by_cases c3 : a3 = 0
    · by_cases c5 : a5 = 0
      · have c7 : a7 ≠ 0 := by tauto
        subst c3; subst c5
        simp [Parameter.fromFile, Cursor.read, hcode, getByte, hne, c7]
      · subst c3
        simp [Parameter.fromFile, Cursor.read, hcode, getByte, hne, c5]
    · simp [Parameter.fromFile, Cursor.read, hcode, getByte, c3]
  · rintro rfl rfl rfl hle
    have hlen2 : (rest.take (a6 * 2)).length = a6 * 2 := by
      simp [List.length_take]
      omega
    constructor
    · simp [Parameter.fromFile, Cursor.read, hcode, getByte, hne, hlen2]
    · exact hlen2

/-- Claim C2, witness: a record with code "ABC", half-length byte 2 and
four available tail bytes decodes to that four-byte tail with the cursor
at position 12, and a record with a nonzero byte 5 is rejected. -/
theorem fromFile_nonend_head_witness_c2 :
    Parameter.fromFile ⟨[65, 66, 67, 0, 0, 0, 2, 0] ++ [1, 2, 3, 4, 9], 0⟩ =
      .ok (⟨"ABC", [65, 66, 67, 0, 0, 0, 2, 0], [1, 2, 3, 4]⟩,
           ⟨[65, 66, 67, 0, 0, 0, 2, 0] ++ [1, 2, 3, 4, 9], 12⟩) ∧
    Parameter.fromFile ⟨[65, 66, 67, 0, 0, 1, 2, 0] ++ [1, 2, 3, 4], 0⟩ =
      .error .structuralViolation := by
  constructor
  · have h := (fromFile_nonend_head_c2 [65, 66, 67, 0, 0, 0, 2, 0]
      [1, 2, 3, 4, 9] "ABC" 0 0 2 0 (by decide) (by decide) (by decide)
      (by decide) (by decide) (by decide) (by decide)).2 rfl rfl rfl
      (by decide)
    simpa using h.1
  · exact (fromFile_nonend_head_c2 [65, 66, 67, 0, 0, 1, 2, 0]
      [1, 2, 3, 4] "ABC" 0 1 2 0 (by decide) (by decide) (by decide)
      (by decide) (by decide) (by decide) (by decide)).1 (by decide)

/-- `encodeLe` produces exactly the requested number of bytes. -/
theorem length_encodeLe (k n : Nat) : (encodeLe k n).length = k := by
  induction k generalizing n with
  | zero => rfl
  | succ k ih => simp [encodeLe, ih]

/-- Little-endian decode inverts little-endian encode below `256 ^ k`. -/
theorem leNat_encodeLe (k : Nat) : ∀ n : Nat, n < 256 ^ k →
    leNat (encodeLe k n) = n := by
  induction k with
  | zero =>
    intro n h
    simp [encodeLe, leNat]
    omega
  | succ k ih =>
    intro n h
    have h2 : n / 256 < 256 ^ k := by
      rw [Nat.div_lt_iff_lt_mul (by norm_num)]
      calc n < 256 ^ (k + 1) := h
        _ = 256 ^ k * 256 := by ring
    simp only [encodeLe, leNat, List.foldr_cons]
    have ihn := ih (n / 256) h2
    simp only [leNat] at ihn
    rw [ihn]
    omega

/-- Signed little-endian 32-bit decode inverts the 4-byte encode on the
signed 32-bit range. -/
theorem leInt32_encodeInt32 (i : Int) (h1 : -(2 ^ 31) ≤ i)
    (h2 : i < 2 ^ 31) : leInt32 (encodeInt32 i) = i := by
  have e31 : (2 : Int) ^ 31 = 2147483648 := by norm_num
  have e32 : (2 : Int) ^ 32 = 4294967296 := by norm_num
  have hm : (i % 2 ^ 32).toNat < 256 ^ 4 := by
    have h256 : (256 : Nat) ^ 4 = 4294967296 := by norm_num
    omega
  unfold encodeInt32 leInt32
  rw [leNat_encodeLe 4 _ hm]
  have hn31 : (2 : Nat) ^ 31 = 2147483648 := by norm_num
  by_cases hu : (i % 2 ^ 32).toNat < 2 ^ 31
  · simp only [hu, if_true]
    omega
  · simp only [hu, if_false]
    omega

/-- `bytes.find(0)` on a list starting with a zero-free prefix finds the
index right after that prefix. -/
theorem findIdx_no_zero (pre post : List Nat)
    (hpre : ∀ b ∈ pre, b ≠ 0) :
    (pre ++ 0 :: post).findIdx (fun b => b = 0) = pre.length := by
  induction pre with
  | nil => simp [List.findIdx_cons]
  | cons a t ih =>
    have ha : a ≠ 0 := hpre a (by simp)
    have ih2 := ih (fun b hb => hpre b (by simp [hb]))
    simp [List.findIdx_cons, ha, ih2]

/-- Claim C3: tail interpretation follows the type-byte table.  Type `0x00`
or `0x10` decodes a 4-byte tail as a little-endian signed 32-bit integer —
so the encoding of any signed 32-bit integer round-trips — and any other
tail length is a structural violation; type `0x01` decodes an 8-byte tail
as a little-endian double — the encoding of any 64-bit pattern round-trips
bit-for-bit — and any other tail length is a structural violation; types
`0x02`, `0x03` and `0x04` decode the tail bytes before the first NUL as
ASCII text; in particular the tail "WN\x00" with type 2 decodes to "WN". -/
theorem interpretation_table_c3 :
    (∀ (code : String) (hd : List Nat) (t : Nat), code ≠ "END" →
      hd[4]? = some t → (t = 0 ∨ t = 0x10) →
      (∀ i : Int, -(2 ^ 31) ≤ i → i < 2 ^ 31 →
        Parameter.interpretationOfTail ⟨code, hd, encodeInt32 i⟩ =
          .ok (.intVal i)) ∧
      (∀ tail : List Nat, tail.length ≠ 4 →
        Parameter.interpretationOfTail ⟨code, hd, tail⟩ =
          .error .structuralViolation)) ∧
    (∀ (code : String) (hd : List Nat), code ≠ "END" →
      hd[4]? = some 1 →
      (∀ w : Nat, w < 2 ^ 64 →
        Parameter.interpretationOfTail ⟨code, hd, encodeLe 8 w⟩ =
          .ok (.realBits w)) ∧
      (∀ tail : List Nat, tail.length ≠ 8 →
        Parameter.interpretationOfTail ⟨code, hd, tail⟩ =
          .error .structuralViolation)) ∧
    (∀ (code : String) (hd : List Nat) (t : Nat), code ≠ "END" →
      hd[4]? = some t → (t = 2 ∨ t = 3 ∨ t = 4) →
      ∀ pre post : List Nat, (∀ b ∈ pre, b ≠ 0 ∧ b < 128) →
        Parameter.interpretationOfTail ⟨code, hd, pre ++ 0 :: post⟩ =
          .ok (.text (asciiString pre))) ∧
    Parameter.interpretationOfTail
      ⟨"ABC", [65, 66, 67, 0, 2, 0, 2, 0], [87, 78, 0]⟩ =
      .ok (.text "WN") := by
  refine ⟨?_, ?_, ?_, by decide⟩
  · intro code hd t hne h4 ht
    constructor
    · intro i hi1 hi2
      have hlen : (encodeInt32 i).length = 4 := length_encodeLe 4 _
      have hrt := leInt32_encodeInt32 i hi1 hi2
      rcases ht with rfl | rfl <;>
        simp [Parameter.interpretationOfTail, getByte, hne, h4, hlen, hrt]
    · intro tail htail
      rcases ht with rfl | rfl <;>
        simp [Parameter.interpretationOfTail, getByte, hne, h4, htail]
  · intro code hd hne h4
    constructor
    · intro w hw
      have hlen : (encodeLe 8 w).length = 8 := length_encodeLe 8 _
      have hw2 : w < 256 ^ 8 := by
        have : (256 : Nat) ^ 8 = 2 ^ 64 := by norm_num
        omega
      have hrt := leNat_encodeLe 8 w hw2
      simp [Parameter.interpretationOfTail, getByte, hne, h4, hlen, hrt]
    · intro tail htail
      simp [Parameter.interpretationOfTail, getByte, hne, h4, htail]
  · intro code hd t hne h4 ht pre post hpre
    have hfind : pyFind (pre ++ 0 :: post) 0 = (pre.length : Int) := by
      unfold pyFind
      rw [findIdx_no_zero pre post (fun b hb => (hpre b hb).1)]
      have : pre.length < (pre ++ 0 :: post).length := by
        simp
      simp [this]
    have hslice : pySliceTo (pre ++ 0 :: post) (pre.length : Int) = pre := by
      unfold pySliceTo
      have h0 : (0 : Int) ≤ (pre.length : Int) := by positivity
      simp only [h0, if_true, Int.toNat_natCast]
      exact List.take_left' rfl
    have hdec : decodeAscii pre = .ok (asciiString pre) := by
      unfold decodeAscii asciiString
      have : pre.all (fun b => b < 128) = true := by
        simp only [List.all_eq_true, decide_eq_true_eq]
        exact fun b hb => (hpre b hb).2
      simp [this]
    rcases ht with rfl | rfl | rfl <;>
      simp [Parameter.interpretationOfTail, getByte, hne, h4, hfind,
        hslice, hdec]

/-- Claim C3, witness: the table applied at the concrete inputs named by
the claim — the type-0 encoding of 42 decodes to 42, the type-1 encoding
of a 64-bit double pattern decodes to the same pattern, the type-2 tail
"WN\x00" decodes to "WN", and a type-0 record with a 3-byte tail is a
structural violation. -/
theorem interpretation_table_witness_c3 :
    Parameter.interpretationOfTail
      ⟨"ABC", [65, 66, 67, 0, 0, 0, 2, 0], encodeInt32 42⟩ =
      .ok (.intVal 42) ∧
    Parameter.interpretationOfTail
      ⟨"ABC", [65, 66, 67, 0, 1, 0, 4, 0], encodeLe 8 4614256656552045848⟩ =
      .ok (.realBits 4614256656552045848) ∧
    Parameter.interpretationOfTail
      ⟨"ABC", [65, 66, 67, 0, 2, 0, 2, 0], [87, 78, 0]⟩ =
      .ok (.text "WN") ∧
    Parameter.interpretationOfTail
      ⟨"ABC", [65, 66, 67, 0, 0, 0, 2, 0], [1, 2, 3]⟩ =
      .error .structuralViolation :=
  ⟨(interpretation_table_c3.1 "ABC" [65, 66, 67, 0, 0, 0, 2, 0] 0
      (by decide) (by decide) (Or.inl rfl)).1 42 (by decide) (by decide),
   (interpretation_table_c3.2.1 "ABC" [65, 66, 67, 0, 1, 0, 4, 0]
      (by decide) (by decide)).1 4614256656552045848 (by norm_num),
   interpretation_table_c3.2.2.2,
   (interpretation_table_c3.1 "ABC" [65, 66, 67, 0, 0, 0, 2, 0] 0
      (by decide) (by decide) (Or.inl rfl)).2 [1, 2, 3] (by decide)⟩

/-- Claim C4: for a record whose code is not "END" and whose type byte is
none of the known values 0x00, 0x01, 0x02, 0x03, 0x04, 0x10, tail
interpretation fails with an `unknownType` error carrying the type byte's
value and the raw head. -/
theorem interpretation_unknown_type_c4 (p : Parameter) (t : Nat)
    (hne : p.code ≠ "END") (h4 : p.head[4]? = some t)
    (ht : ¬(t = 0 ∨ t = 0x10 ∨ t = 1 ∨ t = 2 ∨ t = 3 ∨ t = 4)) :
    p.interpretationOfTail = .error (.unknownType t p.head) := by
  push_neg at ht
  obtain ⟨t0, t16, t1, t2, t3, t4⟩ := ht
  simp [Parameter.interpretationOfTail, getByte, hne, h4,
    t0, t16, t1, t2, t3, t4]

/-- Claim C4, witness: a record with type byte `0x05` fails interpretation
with `unknownType 5` carrying the raw head. -/
theorem interpretation_unknown_type_witness_c4 :
    Parameter.interpretationOfTail
      ⟨"ABC", [65, 66, 67, 0, 5, 0, 1, 0], [1, 2]⟩ =
      .error (.unknownType 5 [65, 66, 67, 0, 5, 0, 1, 0]) :=
  interpretation_unknown_type_c4 ⟨"ABC", [65, 66, 67, 0, 5, 0, 1, 0], [1, 2]⟩
    5 (by decide) (by decide) (by decide)

/-- `bytes.find(0)` returns `-1` on a zero-free byte sequence. -/
theorem pyFind_of_no_zero (bs : List Nat) (h : ∀ b ∈ bs, b ≠ 0) :
    pyFind bs 0 = -1 := by
  unfold pyFind
  have hlen : bs.findIdx (fun b => b = 0) = bs.length :=
    List.findIdx_eq_length_of_false (fun x hx => by simp [h x hx])
  simp [hlen]

/-- Claim C10 (amended): for a record with a text type byte (2, 3 or 4)
whose tail contains no NUL byte at all, the failed search result `-1`
silently drops the final tail byte instead of raising an error: when the
remaining bytes are all ASCII (< 128) interpretation succeeds with the
tail minus its final byte as text, and when some remaining byte is not
ASCII it fails with an `encoding` error (so interpretation is not
unconditionally successful). -/
theorem interpretation_text_no_nul_c10 (p : Parameter) (t : Nat)
    (hne : p.code ≠ "END") (h4 : p.head[4]? = some t)
    (ht : t = 2 ∨ t = 3 ∨ t = 4)
    (hnonul : ∀ b ∈ p.tail, b ≠ 0) :
    ((∀ b ∈ p.tail.dropLast, b < 128) →
      p.interpretationOfTail = .ok (.text (asciiString p.tail.dropLast))) ∧
    (¬(∀ b ∈ p.tail.dropLast, b < 128) →
      p.interpretationOfTail = .error .encoding) := by
  have hfind : pyFind p.tail 0 = -1 := pyFind_of_no_zero p.tail hnonul
  have hslice : pySliceTo p.tail (-1) = p.tail.dropLast := by
    unfold pySliceTo
    rw [List.dropLast_eq_take]
    norm_num
  constructor
  · intro hascii
    have hdec : decodeAscii p.tail.dropLast =
        .ok (asciiString p.tail.dropLast) := by
      unfold decodeAscii asciiString
      have : p.tail.dropLast.all (fun b => b < 128) = true := by
        simp only [List.all_eq_true, decide_eq_true_eq]
        exact hascii
      simp [this]
    rcases ht with rfl | rfl | rfl <;>
      simp [Parameter.interpretationOfTail, getByte, hne, h4, hfind,
        hslice, hdec]
  · intro hbad
    have hdec : decodeAscii p.tail.dropLast = .error .encoding := by
      unfold decodeAscii
      have : p.tail.dropLast.all (fun b => b < 128) = false := by
        simp only [List.all_eq_false]
        push_neg at hbad
        obtain ⟨b, hb, hb2⟩ := hbad
        exact ⟨b, hb, by simpa using hb2⟩
      simp [this]
    rcases ht with rfl | rfl | rfl <;>
      simp [Parameter.interpretationOfTail, getByte, hne, h4, hfind,
        hslice, hdec]

/-- Claim C10, counterexample to the claim as stated: the record with code
"ABC", type byte 2 and the NUL-free tail `[0xFF, 0x41]` decodes
successfully, yet its interpretation fails (with an `encoding` error,
because the byte kept after dropping the final byte is not ASCII). -/
theorem interpretation_text_no_nul_cex_c10 :
    Parameter.fromFile ⟨[65, 66, 67, 0, 2, 0, 1, 0, 0xFF, 0x41], 0⟩ =
      .ok (⟨"ABC", [65, 66, 67, 0, 2, 0, 1, 0], [0xFF, 0x41]⟩,
           ⟨[65, 66, 67, 0, 2, 0, 1, 0, 0xFF, 0x41], 10⟩) ∧
    (0 : Nat) ∉ [0xFF, 0x41] ∧
    Parameter.interpretationOfTail
      ⟨"ABC", [65, 66, 67, 0, 2, 0, 1, 0], [0xFF, 0x41]⟩ =
      .error .encoding := by
  exact ⟨by decide, by decide, by decide⟩

/-- Claim C10, witness: the amended theorem applied to a record with the
NUL-free ASCII tail `[0x41, 0x42]`, whose interpretation drops the final
byte and returns "A". -/
theorem interpretation_text_no_nul_witness_c10 :
    Parameter.interpretationOfTail
      ⟨"ABC", [65, 66, 67, 0, 2, 0, 1, 0], [0x41, 0x42]⟩ =
      .ok (.text (asciiString ([0x41, 0x42] : List Nat).dropLast)) :=
  (interpretation_text_no_nul_c10
    ⟨"ABC", [65, 66, 67, 0, 2, 0, 1, 0], [0x41, 0x42]⟩ 2
    (by decide) (by decide) (Or.inl rfl) (by decide)).1 (by decide)

/-- The first match of a scan equals the head of the filtered list. -/
theorem find_eq_head_filter {α : Type} (p : α → Bool) (l : List α) :
    l.find? p = (l.filter p).head? := by
  induction l with
  | nil => rfl
  | cons a t ih =>
    by_cases ha : p a = true
    · rw [List.find?_cons_of_pos t ha, List.filter_cons_of_pos ha]
      rfl
    · rw [List.find?_cons_of_neg t ha, List.filter_cons_of_neg ha, ih]

/-- When the companion tag computes (the entry is binary), the per-element
comprehension is an ordinary filter on that tag. -/
theorem filterParameterTag_of_some (e : FileHeaderEntry) (t : Nat)
    (hpt : e.parameterListTag = some t) :
    ∀ l : List FileHeaderEntry,
      filterParameterTag e l = .ok (l.filter (fun i => i.tag == t)) := by
  intro l
  induction l with
  | nil => rfl
  | cons i rest ih =>
    simp only [filterParameterTag, hpt, ih, List.filter_cons]

/-- Claim C7: for a binary entry the companion parameter-list tag is the
raw tag with bit `0x10` set, and the companion lookup linearly scans the
directory for the first entry with exactly that tag, failing with
`notFound` when no entry carries it; computing the tag for a non-binary
entry fails (assert), so the lookup for a non-binary entry fails as well —
with the assert's `structuralViolation` as soon as one directory element is
scanned, and with `notFound` on an empty directory, where the per-element
guard is never evaluated. -/
theorem parameter_list_tag_c7 :
    (∀ e : FileHeaderEntry, e.isBinary = true →
      e.parameterListTag = some (e.tag ||| 0x00000010)) ∧
    (∀ e : FileHeaderEntry, e.isBinary = false →
      e.parameterListTag = none ∧
      FileHeader.getParameterListEntry ⟨[]⟩ e = .error .notFound ∧
      ∀ h : FileHeader, h.entries ≠ [] →
        h.getParameterListEntry e = .error .structuralViolation) ∧
    (∀ (h : FileHeader) (e : FileHeaderEntry), e.isBinary = true →
      ((∀ x ∈ h.entries, x.tag ≠ e.tag ||| 0x00000010) →
        h.getParameterListEntry e = .error .notFound) ∧
      (∀ x, h.entries.find?
          (fun i => i.tag == e.tag ||| 0x00000010) = some x →
        h.getParameterListEntry e = .ok x)) := by
  refine ⟨?_, ?_, ?_⟩
  · intro e hb
    simp [FileHeaderEntry.parameterListTag, hb, PARAMETER_TAG_MASK]
  · intro e hb
    have hpt : e.parameterListTag = none := by
      simp [FileHeaderEntry.parameterListTag, hb]
    refine ⟨hpt, ?_, ?_⟩
    · simp [FileHeader.getParameterListEntry, filterParameterTag]
    · intro h hne
      rcases hh : h.entries with _ | ⟨i, rest⟩
      · exact absurd hh hne
      · simp [FileHeader.getParameterListEntry, hh, filterParameterTag, hpt]
  · intro h e hb
    have hpt : e.parameterListTag = some (e.tag ||| 0x00000010) := by
      simp [FileHeaderEntry.parameterListTag, hb, PARAMETER_TAG_MASK]
    have hfil := filterParameterTag_of_some e (e.tag ||| 0x00000010) hpt
      h.entries
    constructor
    · intro hnone
      have hnil : h.entries.filter
          (fun i => i.tag == e.tag ||| 0x00000010) = [] := by
        rw [List.filter_eq_nil_iff]
        intro a ha
        simp [hnone a ha]
      simp [FileHeader.getParameterListEntry, hfil, hnil]
    · intro x hfind
      rw [find_eq_head_filter] at hfind
      rcases hf2 : h.entries.filter
          (fun i => i.tag == e.tag ||| 0x00000010) with _ | ⟨y, ys⟩
      · rw [hf2] at hfind
        simp at hfind
      · rw [hf2] at hfind
        simp only [List.head?_cons, Option.some.injEq] at hfind
        simp [FileHeader.getParameterListEntry, hfil, hf2, hfind]

/-- Claim C7, witness: in a two-entry directory holding the "AB" binary
entry (tag `0x4000100F`) and its companion (tag `0x4000101F`), the
companion tag is `tag | 0x10` and the lookup returns the companion; for a
binary entry with no companion the lookup fails with `notFound`; for the
non-binary entry-list entry the lookup fails with `structuralViolation`
against a one-entry directory and with `notFound` against an empty one. -/
theorem parameter_list_tag_witness_c7 :
    FileHeaderEntry.parameterListTag ⟨0x4000100F, 4, 504⟩ =
      some (0x4000100F ||| 0x00000010) ∧
    FileHeader.getParameterListEntry
      ⟨[⟨0x4000100F, 4, 504⟩, ⟨0x4000101F, 8, 600⟩]⟩ ⟨0x4000100F, 4, 504⟩ =
      .ok ⟨0x4000101F, 8, 600⟩ ∧
    FileHeader.getParameterListEntry
      ⟨[⟨0x4000100F, 4, 504⟩]⟩ ⟨0x4000100F, 4, 504⟩ =
      .error .notFound ∧
    FileHeader.getParameterListEntry
      ⟨[⟨0x4000100F, 4, 504⟩]⟩ ⟨0x00003400, 0, 0⟩ =
      .error .structuralViolation ∧
    FileHeader.getParameterListEntry ⟨[]⟩ ⟨0x00003400, 0, 0⟩ =
      .error .notFound :=
  ⟨parameter_list_tag_c7.1 ⟨0x4000100F, 4, 504⟩ (by decide),
   (parameter_list_tag_c7.2.2 ⟨[⟨0x4000100F, 4, 504⟩, ⟨0x4000101F, 8, 600⟩]⟩
     ⟨0x4000100F, 4, 504⟩ (by decide)).2 ⟨0x4000101F, 8, 600⟩ (by decide),
   (parameter_list_tag_c7.2.2 ⟨[⟨0x4000100F, 4, 504⟩]⟩
     ⟨0x4000100F, 4, 504⟩ (by decide)).1 (by decide),
   (parameter_list_tag_c7.2.1 ⟨0x00003400, 0, 0⟩ (by decide)).2.2
     ⟨[⟨0x4000100F, 4, 504⟩]⟩ (by decide),
   (parameter_list_tag_c7.2.1 ⟨0x00003400, 0, 0⟩ (by decide)).2.1⟩

/-- Claim C8: for every 32-bit tag value the three classification
predicates `is_entry_list` (tag exactly `0x00003400`), `is_history` (tag
exactly `0x40680000`) and `is_binary` (effective tag a key of the binary
table) are pairwise mutually exclusive. -/
theorem tag_classification_exclusive_c8 (e : FileHeaderEntry)
    (h32 : e.tag < 2 ^ 32) :
    ¬(e.isEntryList = true ∧ e.isHistory = true) ∧
    ¬(e.isEntryList = true ∧ e.isBinary = true) ∧
    ¬(e.isHistory = true ∧ e.isBinary = true) := by
  obtain ⟨tag, len, off⟩ := e
  refine ⟨?_, ?_, ?_⟩ <;> rintro ⟨h1, h2⟩
  · simp [FileHeaderEntry.isEntryList] at h1
    simp [FileHeaderEntry.isHistory] at h2
    omega
  · simp [FileHeaderEntry.isEntryList] at h1
    subst h1
    unfold FileHeaderEntry.isBinary at h2
    have he : FileHeaderEntry.effectiveTag ⟨0x00003400, len, off⟩ =
        0x00003400 := by
      show (0x00003400 : Nat) &&& (0xFFFFFFFF ^^^ PARAMETER_UNKNOWN_MASK) =
        0x00003400
      decide
    rw [he] at h2
    exact absurd h2 (by decide)
  · simp [FileHeaderEntry.isHistory] at h1
    subst h1
    unfold FileHeaderEntry.isBinary at h2
    have he : FileHeaderEntry.effectiveTag ⟨0x40680000, len, off⟩ =
        0x00680000 := by
      show (0x40680000 : Nat) &&& (0xFFFFFFFF ^^^ PARAMETER_UNKNOWN_MASK) =
        0x00680000
      decide
    rw [he] at h2
    exact absurd h2 (by decide)

/-- Claim C8, witness: the exclusivity theorem applied at the entry-list
tag `0x00003400` itself. -/
theorem tag_classification_exclusive_witness_c8 :
    ¬(FileHeaderEntry.isEntryList ⟨0x00003400, 0, 0⟩ = true ∧
      FileHeaderEntry.isHistory ⟨0x00003400, 0, 0⟩ = true) ∧
    ¬(FileHeaderEntry.isEntryList ⟨0x00003400, 0, 0⟩ = true ∧
      FileHeaderEntry.isBinary ⟨0x00003400, 0, 0⟩ = true) ∧
    ¬(FileHeaderEntry.isHistory ⟨0x00003400, 0, 0⟩ = true ∧
      FileHeaderEntry.isBinary ⟨0x00003400, 0, 0⟩ = true) :=
  tag_classification_exclusive_c8 ⟨0x00003400, 0, 0⟩ (by norm_num)

/-- Comparing a byte sequence with itself yields no masked difference. -/
theorem diffAux_self (as : List Nat) : ∀ (ms : List Nat) (i : Nat),
    diffAux i as as ms = [] := by
  induction as with
  | nil => intro ms i; rfl
  | cons a t ih =>
    intro ms i
    cases ms with
    | nil => rfl
    | cons m ms' => simp [diffAux, ih]

/-- Every difference recorded by `diffAux` carries an offset at least the
starting offset. -/
theorem diffAux_fst_ge (as : List Nat) : ∀ (bs ms : List Nat) (i : Nat)
    (x : Nat × Nat × Nat), x ∈ diffAux i as bs ms → i ≤ x.1 := by
  induction as with
  | nil => intro bs ms i x hx; simp [diffAux] at hx
  | cons a t ih =>
    intro bs ms i x hx
    cases bs with
    | nil => simp [diffAux] at hx
    | cons b bs' =>
      cases ms with
      | nil => simp [diffAux] at hx
      | cons m ms' =>
        simp only [diffAux] at hx
        by_cases hc : (m &&& a) ≠ (m &&& b)
        · rw [if_pos hc] at hx
          rcases List.mem_cons.mp hx with rfl | hx2
          · exact Nat.le_refl i
          · have := ih bs' ms' (i + 1) x hx2
            omega
        · rw [if_neg hc] at hx
          have := ih bs' ms' (i + 1) x hx
          omega

/-- A triple `(i + j, a, b)` is recorded by `diffAux` started at offset `i`
exactly when the bytes at position `j` disagree under the mask at `j`. -/
theorem diffAux_mem_iff (as : List Nat) : ∀ (bs ms : List Nat)
    (i j a b m : Nat), as[j]? = some a → bs[j]? = some b →
    ms[j]? = some m →
    ((i + j, a, b) ∈ diffAux i as bs ms ↔ (m &&& a) ≠ (m &&& b)) := by
  induction as with
  | nil => intro bs ms i j a b m ha; simp at ha
  | cons a0 t ih =>
    intro bs ms i j a b m ha hb hm
    cases bs with
    | nil => simp at hb
    | cons b0 bs' =>
      cases ms with
      | nil => simp at hm
      | cons m0 ms' =>
        cases j with
        | zero =>
          simp only [List.getElem?_cons_zero, Option.some.injEq] at ha hb hm
          rw [← ha, ← hb, ← hm]
          simp only [diffAux, Nat.add_zero]
          by_cases hc : (m0 &&& a0) ≠ (m0 &&& b0)
          · rw [if_pos hc]
            simp [hc]
          · rw [if_neg hc]
            constructor
            · intro hmem
              have := diffAux_fst_ge t bs' ms' (i + 1) _ hmem
              omega
            · intro hcc
              exact absurd hcc hc
        | succ j' =>
          simp only [List.getElem?_cons_succ] at ha hb hm
          have harith : i + (j' + 1) = (i + 1) + j' := by omega
          simp only [diffAux]
          have hiff := ih bs' ms' (i + 1) j' a b m ha hb hm
          by_cases hc : (m0 &&& a0) ≠ (m0 &&& b0)
          · rw [if_pos hc, List.mem_cons, harith]
            constructor
            · rintro (hcontra | hmem)
              · have h1 := congrArg Prod.fst hcontra
                simp at h1
                omega
              · exact hiff.mp hmem
            · intro hcc
              exact Or.inr (hiff.mpr hcc)
          · rw [if_neg hc, harith]
            exact hiff

/-- Overwriting position `j` with a byte that disagrees under the mask
makes that position the one and only recorded difference. -/
theorem diffAux_set (bs : List Nat) : ∀ (ms : List Nat) (i j v b m : Nat),
    bs[j]? = some b → ms[j]? = some m → (m &&& v) ≠ (m &&& b) →
    diffAux i (bs.set j v) bs ms = [(i + j, v, b)] := by
  induction bs with
  | nil => intro ms i j v b m hb; simp at hb
  | cons b0 t ih =>
    intro ms i j v b m hb hm hc
    cases ms with
    | nil => simp at hm
    | cons m0 ms' =>
      cases j with
      | zero =>
        simp only [List.getElem?_cons_zero, Option.some.injEq] at hb hm
        subst hb; subst hm
        simp only [List.set, diffAux]
        rw [if_pos hc, diffAux_self]
        simp
      | succ j' =>
        simp only [List.getElem?_cons_succ] at hb hm
        simp only [List.set, diffAux]
        rw [if_neg (by simp)]
        rw [ih ms' (i + 1) j' v b m hb hm hc]
        have harith : i + 1 + j' = i + (j' + 1) := by omega
        rw [harith]

/-- Claim C9: the magic-mismatch diagnostic is complete and exact — a
triple `(i, actual, reference)` is reported precisely when the two bytes at
offset `i` disagree under the mask at offset `i`; and for any single-bit
flip at a non-masked magic byte (every offset below 20 other than 8, 9 and
10), header decode fails with a `magicMismatch` naming exactly that offset
together with the flipped and the reference byte value. -/
theorem magic_difference_c9 :
    (∀ (magic : List Nat) (i a b m : Nat),
      magic[i]? = some a → MAGIC[i]? = some b → MMASK[i]? = some m →
      ((i, a, b) ∈ getDifference magic ↔ (m &&& a) ≠ (m &&& b))) ∧
    (∀ magic rest : List Nat, magic.length = 20 →
      getDifference magic ≠ [] →
      FileHeader.fromFile ⟨magic ++ rest, 0⟩ =
        .error (.magicMismatch (getDifference magic))) ∧
    (∀ i k orig : Nat, i < 20 → i ≠ 8 → i ≠ 9 → i ≠ 10 → k < 8 →
      MAGIC[i]? = some orig →
      getDifference (MAGIC.set i (orig ^^^ 2 ^ k)) =
        [(i, orig ^^^ 2 ^ k, orig)] ∧
      FileHeader.fromFile
          ⟨MAGIC.set i (orig ^^^ 2 ^ k) ++ [0, 0, 0, 0], 0⟩ =
        .error (.magicMismatch [(i, orig ^^^ 2 ^ k, orig)])) := by
  refine ⟨?_, ?_, ?_⟩
  · intro magic i a b m ha hb hm
    have h := diffAux_mem_iff magic MAGIC MMASK 0 i a b m ha hb hm
    rw [Nat.zero_add] at h
    exact h
  · intro magic rest hlen hne
    simp only [FileHeader.fromFile, Cursor.read, List.drop_zero]
    rw [show MAGIC.length = 20 from rfl, List.take_left' hlen]
    simp [hlen, hne]
  · intro i k orig hi h8 h9 h10 hk horig
    have hmask : MMASK[i]? = some 0xff := by
      have hall : ∀ j : Nat, j < 20 → j ≠ 8 → j ≠ 9 → j ≠ 10 →
          MMASK[j]? = some 0xff := by decide
      exact hall i hi h8 h9 h10
    have horig256 : orig < 256 := by
      have hall : ∀ b ∈ MAGIC, b < 256 := by decide
      exact hall orig (List.getElem?_mem horig)
    have hv256 : orig ^^^ 2 ^ k < 256 := by
      have h2k : 2 ^ k < 2 ^ 8 := Nat.pow_lt_pow_right (by norm_num) hk
      exact Nat.xor_lt_two_pow (by norm_num [horig256]) h2k
    have hvne : orig ^^^ 2 ^ k ≠ orig := by
      intro hcontra
      have h0 : orig ^^^ (orig ^^^ 2 ^ k) = orig ^^^ orig := by
        rw [hcontra]
      rw [← Nat.xor_assoc, Nat.xor_self, Nat.zero_xor] at h0
      have hpos : 0 < 2 ^ k := Nat.pos_pow_of_pos k (by norm_num)
      omega
    have hmismatch : (0xff &&& (orig ^^^ 2 ^ k)) ≠ (0xff &&& orig) := by
      rw [land255_eq _ hv256, land255_eq _ horig256]
      exact hvne
    have hdiff : getDifference (MAGIC.set i (orig ^^^ 2 ^ k)) =
        [(i, orig ^^^ 2 ^ k, orig)] := by
      unfold getDifference
      have h := diffAux_set MAGIC MMASK 0 i (orig ^^^ 2 ^ k) orig 0xff
        horig hmask hmismatch
      rw [h, Nat.zero_add]
    refine ⟨hdiff, ?_⟩
    have hlen : (MAGIC.set i (orig ^^^ 2 ^ k)).length = 20 := by
      simp [MAGIC]
    simp only [FileHeader.fromFile, Cursor.read, List.drop_zero]
    rw [show MAGIC.length = 20 from rfl]
    rw [List.take_left' hlen]
    simp [hlen, hdiff]

/-- Claim C9, witness: flipping bit 0 of magic byte 0 (reference value
`0x0a`) makes header decode fail with a mismatch naming exactly offset 0
with both byte values; and the membership characterization applied to that
flipped prologue at offset 0. -/
theorem magic_difference_witness_c9 :
    ((0, 0x0b, 0x0a) ∈
        getDifference (MAGIC.set 0 (0x0a ^^^ 2 ^ 0)) ↔
      (0xff &&& 0x0b : Nat) ≠ (0xff &&& 0x0a)) ∧
    FileHeader.fromFile ⟨MAGIC.set 0 (0x0a ^^^ 2 ^ 0) ++ [0, 0, 0, 0], 0⟩ =
      .error (.magicMismatch
        (getDifference (MAGIC.set 0 (0x0a ^^^ 2 ^ 0)))) ∧
    getDifference (MAGIC.set 0 (0x0a ^^^ 2 ^ 0)) = [(0, 0x0b, 0x0a)] ∧
    FileHeader.fromFile ⟨MAGIC.set 0 (0x0a ^^^ 2 ^ 0) ++ [0, 0, 0, 0], 0⟩ =
      .error (.magicMismatch [(0, 0x0b, 0x0a)]) := by
  refine ⟨?_, ?_, ?_, ?_⟩
  · exact magic_difference_c9.1 (MAGIC.set 0 (0x0a ^^^ 2 ^ 0)) 0 0x0b 0x0a
      0xff (by decide) (by decide) (by decide)
  · exact magic_difference_c9.2.1 (MAGIC.set 0 (0x0a ^^^ 2 ^ 0))
      [0, 0, 0, 0] (by decide) (by decide)
  · exact (magic_difference_c9.2.2 0 0 0x0a (by decide) (by decide)
      (by decide) (by decide) (by decide) (by decide)).1
  · exact (magic_difference_c9.2.2 0 0 0x0a (by decide) (by decide)
      (by decide) (by decide) (by decide) (by decide)).2

/-- Decoding one well-formed non-"END" record laid out at the cursor
position returns exactly that record and advances the cursor to the first
byte after its tail. -/
theorem fromFile_step_nonend (pre hd t rest : List Nat) (code : String)
    (b6 : Nat)
    (hlen : hd.length = 8)
    (hcode : decodeAscii (hd.take 3) = .ok code)
    (hne : code ≠ "END")
    (h3 : hd[3]? = some 0) (h5 : hd[5]? = some 0)
    (h6 : hd[6]? = some b6) (h7 : hd[7]? = some 0)
    (ht : t.length = b6 * 2) :
    Parameter.fromFile ⟨pre ++ (hd ++ (t ++ rest)), pre.length⟩ =
      .ok (⟨code, hd, t⟩,
           ⟨pre ++ (hd ++ (t ++ rest)), pre.length + 8 + t.length⟩) := by
  have hdrop1 : (pre ++ (hd ++ (t ++ rest))).drop pre.length =
      hd ++ (t ++ rest) := List.drop_left pre _
  have htake1 : (hd ++ (t ++ rest)).take 8 = hd :=
    List.take_left' hlen
  have hdrop2 : (pre ++ (hd ++ (t ++ rest))).drop (pre.length + 8) =
      t ++ rest := by
    have hassoc : pre ++ (hd ++ (t ++ rest)) = (pre ++ hd) ++ (t ++ rest) :=
      (List.append_assoc pre hd (t ++ rest)).symm
    have hplen : (pre ++ hd).length = pre.length + 8 := by
      simp [hlen]
    rw [hassoc, ← hplen, List.drop_left]
  have htake2 : (t ++ rest).take (b6 * 2) = t :=
    List.take_left' ht
  simp only [Parameter.fromFile, Cursor.read, hdrop1, htake1, hcode,
    getByte, h3, h5, h6, h7, hlen, hdrop2, htake2, ht]
  simp [hne, ht]

/-- Decoding a well-formed "END" record laid out at the cursor position
returns the sentinel record with an empty tail and advances the cursor by
exactly the eight head bytes. -/
theorem fromFile_step_end (pre e rest : List Nat) (b4 : Nat)
    (hlen : e.length = 8)
    (hc3 : e.take 3 = [69, 78, 68])
    (h3 : e[3]? = some 0) (h4 : e[4]? = some b4)
    (hb4 : b4 = 0x00 ∨ b4 = 0x2E) :
    Parameter.fromFile ⟨pre ++ (e ++ rest), pre.length⟩ =
      .ok (⟨"END", e, []⟩, ⟨pre ++ (e ++ rest), pre.length + 8⟩) := by
  have hdrop1 : (pre ++ (e ++ rest)).drop pre.length = e ++ rest :=
    List.drop_left pre _
  have htake1 : (e ++ rest).take 8 = e := List.take_left' hlen
  have hdec : decodeAscii (e.take 3) = .ok "END" := by
    rw [hc3]
    decide
  simp only [Parameter.fromFile, Cursor.read, hdrop1, htake1, hdec,
    getByte, h3, h4, hlen]
  rcases hb4 with rfl | rfl <;> simp

/-- Whenever the fuelled reader loop returns, the returned sequence is the
accumulator followed by some non-"END" records and one final "END"
record. -/
theorem readParameterListAux_shape : ∀ (fuel : Nat) (c : Cursor)
    (acc ps : List Parameter) (c' : Cursor),
    readParameterListAux fuel c acc = .ok (ps, c') →
    ∃ mid last, ps = acc ++ mid ++ [last] ∧ last.code = "END" ∧
      ∀ x ∈ mid, x.code ≠ "END" := by
  intro fuel
  induction fuel with
  | zero =>
    intro c acc ps c' h
    simp [readParameterListAux] at h
  | succ n ih =>
    intro c acc ps c' h
    simp only [readParameterListAux] at h
    rcases hf : Parameter.fromFile c with e | ⟨p, c1⟩
    · simp [hf] at h
    · simp only [hf] at h
      by_cases hcode : p.code = "END"
      · rw [if_pos hcode] at h
        simp only [Except.ok.injEq, Prod.mk.injEq] at h
        refine ⟨[], p, ?_, hcode, by simp⟩
        rw [← h.1]
        simp
      · rw [if_neg hcode] at h
        obtain ⟨mid, last, hps, hlast, hmid⟩ := ih c1 (acc ++ [p]) ps c' h
        refine ⟨p :: mid, last, ?_, hlast, ?_⟩
        · rw [hps]
          simp
        · intro x hx
          rcases List.mem_cons.mp hx with rfl | hx2
          · exact hcode
          · exact hmid x hx2

/-- Claim C6: whenever the parameter-list reader returns a sequence, that
sequence consists of records in decode order in which exactly the last
record — and no earlier one — has code "END"; and for every input laid out
as one well-formed non-"END" record followed by one well-formed "END"
record, the reader returns exactly those two records in order, the "END"
record last. -/
theorem read_parameter_list_c6 :
    (∀ (c : Cursor) (ps : List Parameter) (c' : Cursor),
      readParameterListToEnd c = .ok (ps, c') →
      ∃ mid last, ps = mid ++ [last] ∧ last.code = "END" ∧
        ∀ x ∈ mid, x.code ≠ "END") ∧
    (∀ (hd t e : List Nat) (code : String) (b4 b6 : Nat),
      hd.length = 8 → decodeAscii (hd.take 3) = .ok code → code ≠ "END" →
      hd[3]? = some 0 → hd[5]? = some 0 → hd[6]? = some b6 →
      hd[7]? = some 0 → t.length = b6 * 2 →
      e.length = 8 → e.take 3 = [69, 78, 68] → e[3]? = some 0 →
      e[4]? = some b4 → (b4 = 0x00 ∨ b4 = 0x2E) →
      readParameterListToEnd ⟨hd ++ (t ++ e), 0⟩ =
        .ok ([⟨code, hd, t⟩, ⟨"END", e, []⟩],
             ⟨hd ++ (t ++ e), 16 + t.length⟩)) := by
  constructor
  · intro c ps c' h
    obtain ⟨mid, last, hps, hlast, hmid⟩ :=
      readParameterListAux_shape (c.data.length + 1) c [] ps c' h
    refine ⟨mid, last, ?_, hlast, hmid⟩
    simpa using hps
  · intro hd t e code b4 b6 hlen hcode hne h3 h5 h6 h7 ht hlenE hc3 h3e
      h4e hb4
    have hstep1 : Parameter.fromFile ⟨hd ++ (t ++ e), 0⟩ =
        .ok (⟨code, hd, t⟩, ⟨hd ++ (t ++ e), 8 + t.length⟩) := by
      have h := fromFile_step_nonend [] hd t e code b6 hlen hcode hne
        h3 h5 h6 h7 ht
      simpa using h
    have hstep2 : Parameter.fromFile ⟨hd ++ (t ++ e), 8 + t.length⟩ =
        .ok (⟨"END", e, []⟩, ⟨hd ++ (t ++ e), 8 + t.length + 8⟩) := by
      have h := fromFile_step_end (hd ++ t) e [] b4 hlenE hc3 h3e h4e hb4
      have hplen : (hd ++ t).length = 8 + t.length := by
        simp [hlen]
      rw [hplen] at h
      simpa [List.append_assoc] using h
    unfold readParameterListToEnd
    dsimp only
    have hdlen : (hd ++ (t ++ e)).length + 1 = (t.length + 16) + 1 := by
      simp only [List.length_append, hlen, hlenE]
      omega
    rw [hdlen]
    have hpos : 8 + t.length + 8 = 16 + t.length := by omega
    simp only [readParameterListAux, hstep1, hstep2]
    simp [hne, hpos]

/-- Claim C6, witness: the two-record input consisting of the record "ABC"
(type 0, 4-byte tail) and a terminal END record decodes to exactly those
two records, with the END record last. -/
theorem read_parameter_list_witness_c6 :
    readParameterListToEnd
      ⟨[65, 66, 67, 0, 0, 0, 2, 0] ++ ([42, 0, 0, 0] ++
        [69, 78, 68, 0, 0, 0, 0, 0]), 0⟩ =
      .ok ([⟨"ABC", [65, 66, 67, 0, 0, 0, 2, 0], [42, 0, 0, 0]⟩,
            ⟨"END", [69, 78, 68, 0, 0, 0, 0, 0], []⟩],
           ⟨[65, 66, 67, 0, 0, 0, 2, 0] ++ ([42, 0, 0, 0] ++
             [69, 78, 68, 0, 0, 0, 0, 0]), 16 + 4⟩) := by
  have h := read_parameter_list_c6.2 [65, 66, 67, 0, 0, 0, 2, 0]
    [42, 0, 0, 0] [69, 78, 68, 0, 0, 0, 0, 0] "ABC" 0 2 (by decide)
    (by decide) (by decide) (by decide) (by decide) (by decide) (by decide)
    (by decide) (by decide) (by decide) (by decide) (by decide)
    (Or.inl rfl)
  simpa using h

end Opus
